import Mathlib

/-!
Verification of the geospatial proximity engine of the
natural-disaster-distance-monitor repository.

The Python source is shallowly embedded as follows:
* coordinates are idealized as exact rationals (`ℚ`) for the polygon
  containment pipeline, whose operations are all field arithmetic and
  comparisons;
* great-circle distances (`haversine`) are real-valued (`ℝ`), using
  `Real.sin`, `Real.cos`, `Real.arcsin`, `Real.sqrt`;
* `float('inf')` distances are modelled by `⊤ : EReal`;
* a NumPy exception that escapes the function (re-raised after logging)
  is modelled by `Option` (`none` = exception);
* the NumPy batched operations of `is_point_in_polygon_vectorized` act
  elementwise on the query points, so the batched function is the map of
  the per-point computation over the batch, with the bounding-box
  gather/scatter reflected per point.
-/

namespace DisasterMonitor

/-- Constant `EARTH_RADIUS_MILES = 3956` from `utils.py`. -/
def EARTH_RADIUS_MILES : ℝ := 3956

/-- Vertex-coincidence tolerance `1e-9` (degrees) from `utils.py`. -/
def VERTEX_TOL : ℚ := 1 / 1000000000

/-- Edge-coincidence squared-distance tolerance `1e-12` (degrees²). -/
def EDGE_TOL : ℚ := 1 / 1000000000000

/-- Minimum of a list, seeded with the first element (`np.min` over a
nonempty axis); `0` on the empty list, where the source would raise. -/
def listMin {α : Type} [Zero α] [LinearOrder α] : List α → α
  | [] => 0
  | a :: as => as.foldl min a

/-- Maximum of a list (`np.max`); `0` on the empty list. -/
def listMax {α : Type} [Zero α] [LinearOrder α] : List α → α
  | [] => 0
  | a :: as => as.foldl max a

/-- Check `on_vertex = (|x - xi| < 1e-9) & (|y - yi| < 1e-9)` (utils.py line 164). -/
def onVertexCheck (x y xi yi : ℚ) : Bool :=
  decide (|x - xi| < VERTEX_TOL) && decide (|y - yi| < VERTEX_TOL)

/-- The edge-coincidence check of utils.py lines 167-179: project the
point on the edge's line; flag when the squared distance is below the
tolerance and the projection parameter `t` lies in `[0,1]`.  Skipped
(`False`) for zero-length edges. -/
def onEdgeCheck (x y xi yi xj yj : ℚ) : Bool :=
  let edge_x := xj - xi
  let edge_y := yj - yi
  let edge_length_sq := edge_x ^ 2 + edge_y ^ 2
  if 0 < edge_length_sq then
    let t := ((x - xi) * edge_x + (y - yi) * edge_y) / edge_length_sq
    let px := xi + t * edge_x
    let py := yi + t * edge_y
    let distance_sq := (x - px) ^ 2 + (y - py) ^ 2
    decide (distance_sq < EDGE_TOL) && decide (0 ≤ t) && decide (t ≤ 1)
  else false

/-- The ray-crossing condition of utils.py lines 183-190: the edge's
vertical span straddles the point's latitude (half-open, oriented by
`yj > yi`) and the ray/edge intersection longitude, computed from the
slope `edge_x / edge_y`, strictly exceeds the point's longitude.
(When `yi = yj` the straddle test is false, matching the NumPy code
where the division-by-zero result is discarded by the mask.) -/
def rayCondition (x y xi yi xj yj : ℚ) : Bool :=
  let straddle :=
    (decide (yi ≤ y) && decide (y < yj) && decide (yi < yj)) ||
    (decide (yj ≤ y) && decide (y < yi) && !(decide (yi < yj)))
  let slope := (xj - xi) / (yj - yi)
  straddle && decide (x < xi + (y - yi) * slope)

/-- One iteration of the edge loop of utils.py lines 158-191 for a single
query point, acting on the point's boolean flag `b`: OR in the vertex and
edge coincidence checks, then apply the masked XOR
`inside_or_on_edge_bbox[mask] ^= intersect[mask]` where
`mask = ~inside_or_on_edge_bbox & (yi != yj)`. -/
def edgeStep (x y : ℚ) (b : Bool) (e : (ℚ × ℚ) × (ℚ × ℚ)) : Bool :=
  let xi := e.1.1
  let yi := e.1.2
  let xj := e.2.1
  let yj := e.2.2
  let b1 := b || onVertexCheck x y xi yi
  let b2 := b1 || onEdgeCheck x y xi yi xj yj
  let mask := !b2 && decide (yi ≠ yj)
  if mask && rayCondition x y xi yi xj yj then !b2 else b2

/-- The edge list of the ring: pairs `(polygon[i], polygon[(i+1) % n])`
for `i in range(n)`. -/
def edges (poly : List (ℚ × ℚ)) : List ((ℚ × ℚ) × (ℚ × ℚ)) :=
  poly.zip (poly.rotate 1)

/-- The full per-point vertex/edge/ray pipeline (utils.py lines 156-191),
without the bounding-box prefilter: fold the edge loop over all edges,
starting from `False`. -/
def pipelinePoint (x y : ℚ) (poly : List (ℚ × ℚ)) : Bool :=
  (edges poly).foldl (edgeStep x y) false

/-- The bounding-box prefilter (utils.py lines 144-147):
`(x >= min_x) & (x <= max_x) & (y >= min_y) & (y <= max_y)`. -/
def inBBox (x y : ℚ) (poly : List (ℚ × ℚ)) : Bool :=
  decide (listMin (poly.map Prod.fst) ≤ x) && decide (x ≤ listMax (poly.map Prod.fst)) &&
  decide (listMin (poly.map Prod.snd) ≤ y) && decide (y ≤ listMax (poly.map Prod.snd))

/-- The containment result for one query point of
`is_point_in_polygon_vectorized`: points outside the bounding box are
immediately false; the others go through the vertex/edge/ray pipeline. -/
def contains1 (x y : ℚ) (poly : List (ℚ × ℚ)) : Bool :=
  if inBBox x y poly then pipelinePoint x y poly else false

/-- Function `is_point_in_polygon_vectorized` (utils.py lines 108-199) on a batch
of query points.  An empty batch returns the empty result before the
polygon is touched; otherwise an empty polygon makes `np.min(polygon,
axis=0)` raise, and the exception is re-raised (`none`). -/
def is_point_in_polygon_vectorized (xs ys : List ℚ) (poly : List (ℚ × ℚ)) :
    Option (List Bool) :=
  if xs = [] then some []
  else if poly = [] then none
  else some ((xs.zip ys).map fun p => contains1 p.1 p.2 poly)

/-- Function `is_point_in_polygon` (utils.py lines 202-217): the single-point
wrapper, `result[0]` of the batched call. -/
def is_point_in_polygon (x y : ℚ) (poly : List (ℚ × ℚ)) : Option Bool :=
  if poly = [] then none else some (contains1 x y poly)

/-- Conversion `math.radians`: degrees to radians. -/
noncomputable def radians (x : ℚ) : ℝ := (x : ℝ) * (Real.pi / 180)

/-- Function `haversine` (utils.py lines 35-61): great-circle distance in miles. -/
noncomputable def haversine (lon1 lat1 lon2 lat2 : ℚ) : ℝ :=
  let rlon1 := radians lon1
  let rlat1 := radians lat1
  let rlon2 := radians lon2
  let rlat2 := radians lat2
  let dlon := rlon2 - rlon1
  let dlat := rlat2 - rlat1
  let a := Real.sin (dlat / 2) ^ 2 +
    Real.cos rlat1 * Real.cos rlat2 * Real.sin (dlon / 2) ^ 2
  let c := 2 * Real.arcsin (Real.sqrt a)
  EARTH_RADIUS_MILES * c

/-- Function `haversine_vectorized` (utils.py lines 64-101), for a scalar origin
broadcast against arrays of target coordinates: the same formula
evaluated elementwise over the target arrays. -/
noncomputable def haversine_vectorized (lon1 lat1 : ℚ) (lon2s lat2s : List ℚ) :
    List ℝ :=
  (lon2s.zip lat2s).map fun p =>
    let rlon1 := radians lon1
    let rlat1 := radians lat1
    let rlon2 := radians p.1
    let rlat2 := radians p.2
    let dlon := rlon2 - rlon1
    let dlat := rlat2 - rlat1
    let a := Real.sin (dlat / 2) ^ 2 +
      Real.cos rlat1 * Real.cos rlat2 * Real.sin (dlon / 2) ^ 2
    let c := 2 * Real.arcsin (Real.sqrt a)
    EARTH_RADIUS_MILES * c

/-- The minimum vertex haversine distance from the query point
`(user_lon, user_lat)` to a ring:
`np.min(haversine_vectorized(user_lon, user_lat, ring[:,0], ring[:,1]))`. -/
noncomputable def ringMinDistance (user_lat user_lon : ℚ) (ring : List (ℚ × ℚ)) : ℝ :=
  listMin (ring.map fun p => haversine user_lon user_lat p.1 p.2)

/-!
### Hurricane forecast-cone evaluator (`hurricanes.py`)

A cone record carries an optional `geometry['rings']` list and the
optional fallback scalar columns `LAT`/`LON`.  A missing or empty
geometry dict, or one without a `'rings'` key, is `geometry = none`.
-/

structure ConeRecord where
  geometry : Option (List (List (ℚ × ℚ)))
  lat : Option ℚ
  lon : Option ℚ

/-- Python truthiness of the `LAT`/`LON` fallback columns in
`if cone_lat and cone_lon:`: missing (`None`) and the number `0` are
falsy. -/
def truthy : Option ℚ → Bool
  | none => false
  | some v => decide (v ≠ 0)

/-- Function `_calculate_distance_to_cone` (hurricanes.py lines 285-340).
`⊤ : EReal` is `float('inf')`; the `except` branch that returns
`(inf, False)` is reached when `rings` is empty or the outer ring is
empty (NumPy raises inside the `try`). -/
noncomputable def calculate_distance_to_cone (user_lat user_lon : ℚ)
    (cone : ConeRecord) : EReal × Bool :=
  match cone.geometry with
  | none =>
    if truthy cone.lat && truthy cone.lon then
      match cone.lat, cone.lon with
      | some cone_lat, some cone_lon =>
        (((haversine user_lon user_lat cone_lon cone_lat : ℝ) : EReal), false)
      | _, _ => (⊤, false)
    else (⊤, false)
  | some [] => (⊤, false)
  | some (polygon :: _) =>
    if polygon = [] then (⊤, false)
    else if contains1 user_lon user_lat polygon then ((0 : EReal), true)
    else (((ringMinDistance user_lat user_lon polygon : ℝ) : EReal), false)

/-!
### Wildfire perimeter evaluator (`wildfires.py`)
-/

/-- One iteration of the ring loop of `_calculate_distance_to_fire`
(wildfires.py lines 299-332), on the state
`(inside_outer, inside_hole, min_distance)`; the ring is paired with its
index `i` (`rings[0]` is the outer boundary, `rings[1:]` are holes).
Rings that are empty or have fewer than 3 points are skipped. -/
noncomputable def fireStep (user_lat user_lon : ℚ) (st : Bool × Bool × EReal)
    (e : ℕ × List (ℚ × ℚ)) : Bool × Bool × EReal :=
  if e.2.length < 3 then st
  else
    let ring_inside := contains1 user_lon user_lat e.2
    let inside_outer := if ring_inside && decide (e.1 = 0) then true else st.1
    let inside_hole := if ring_inside && decide (e.1 ≠ 0) then true else st.2.1
    let min_distance :=
      min st.2.2 ((ringMinDistance user_lat user_lon e.2 : ℝ) : EReal)
    (inside_outer, inside_hole, min_distance)

/-- Function `_calculate_distance_to_fire` (wildfires.py lines 265-345): a point
is inside the perimeter iff it is inside the outer ring and in no hole
ring; the distance is the minimum vertex distance over all rings,
forced to `0` when inside. -/
noncomputable def calculate_distance_to_fire (user_lat user_lon : ℚ)
    (rings : List (List (ℚ × ℚ))) : EReal × Bool :=
  if rings = [] then (⊤, false)
  else
    let st := rings.enum.foldl (fireStep user_lat user_lon) (false, false, (⊤ : EReal))
    let inside := st.1 && !st.2.1
    if inside then ((0 : EReal), true) else (st.2.2, false)

/-!
### Result ranking (`get_wildfires_near_location` lines 186-262,
`get_hurricanes_near_location` lines 203-282)

Each record is evaluated to `(distance, inside)`; records with
`distance > radius_miles and not inside` are skipped; the stored
`distance_miles` is `0.0 if inside else distance`; finally
`results.sort(key=lambda x: x.distance_miles)` — Python's stable sort. -/

/-- The filter/force/stable-sort ranking applied to
`(record, (distance, contained))` pairs. -/
noncomputable def rankResults {α : Type} (radius_miles : EReal)
    (entries : List (α × EReal × Bool)) : List (α × EReal × Bool) :=
  let kept := entries.filter fun e => !(decide (radius_miles < e.2.1) && !e.2.2)
  let stored := kept.map fun e => (e.1, if e.2.2 then (0 : EReal) else e.2.1, e.2.2)
  stored.mergeSort fun a b => decide (a.2.1 ≤ b.2.1)

/-!
### Structural lemmas about the containment pipeline
-/

/-- The per-edge flag: vertex coincidence, edge coincidence, or ray
crossing. -/
def edgeFlag (x y : ℚ) (e : (ℚ × ℚ) × (ℚ × ℚ)) : Bool :=
  onVertexCheck x y e.1.1 e.1.2 || onEdgeCheck x y e.1.1 e.1.2 e.2.1 e.2.2 ||
    rayCondition x y e.1.1 e.1.2 e.2.1 e.2.2

/-- The test ring of spec §8: `[(-100,25),(-100,35),(-90,35),(-90,25)]`
in (lon, lat) order. -/
def testRing : List (ℚ × ℚ) := [(-100, 25), (-100, 35), (-90, 35), (-90, 25)]

/-- A concave-free diamond ring whose bounding box properly contains
points outside the ring: vertices `(0,0),(1,1),(2,0),(1,-1)`. -/
def diamondRing : List (ℚ × ℚ) := [(0, 0), (1, 1), (2, 0), (1, -1)]

/-- The hole ring of spec §8: `[(-97,28),(-97,32),(-93,32),(-93,28)]`. -/
def holeRing : List (ℚ × ℚ) := [(-97, 28), (-97, 32), (-93, 32), (-93, 28)]

theorem rayCondition_of_horizontal (x y xi xj : ℚ) {yi yj : ℚ} (h : yi = yj) :
    rayCondition x y xi yi xj yj = false := by
  subst h
  have h1 : ¬ (yi < yi) := lt_irrefl yi
  by_cases h2 : yi ≤ y
  · have h3 : ¬ (y < yi) := not_lt.mpr h2
    simp [rayCondition, h1, h3]
  · simp [rayCondition, h1, h2]

/-- The masked XOR of one edge iteration is an OR with the edge flag:
the mask `~inside_or_on_edge_bbox` only ever lets a `False` flag flip to
`True`, so a flag that is already set can never be toggled back. -/
theorem edgeStep_eq_or (x y : ℚ) (b : Bool) (e : (ℚ × ℚ) × (ℚ × ℚ)) :
    edgeStep x y b e = (b || edgeFlag x y e) := by
  unfold edgeStep edgeFlag
  rcases e with ⟨⟨xi, yi⟩, xj, yj⟩
  simp only
  by_cases hy : yi = yj
  · rw [rayCondition_of_horizontal x y xi xj hy]
    simp [hy, Bool.or_assoc]
  · cases b <;> cases h1 : onVertexCheck x y xi yi <;>
      cases h2 : onEdgeCheck x y xi yi xj yj <;>
      cases h3 : rayCondition x y xi yi xj yj <;>
      simp [h1, h2, h3, hy]

theorem foldl_edgeStep_eq_any (x y : ℚ) (l : List ((ℚ × ℚ) × (ℚ × ℚ))) :
    ∀ b : Bool, l.foldl (edgeStep x y) b = (b || l.any (edgeFlag x y)) := by
  induction l with
  | nil => simp
  | cons e t ih =>
    intro b
    simp only [List.foldl_cons, List.any_cons, ih, edgeStep_eq_or, Bool.or_assoc]

/-- The whole pipeline is the OR of the per-edge flags over all edges. -/
theorem pipelinePoint_eq_any (x y : ℚ) (poly : List (ℚ × ℚ)) :
    pipelinePoint x y poly = (edges poly).any (edgeFlag x y) := by
  simpa using foldl_edgeStep_eq_any x y (edges poly) false

/-!
### Lemmas about `listMin` / `listMax`
-/

theorem foldl_min_comm {α : Type} [LinearOrder α] (l : List α) (s a : α) :
    l.foldl min (min s a) = min s (l.foldl min a) := by
  induction l generalizing a with
  | nil => simp
  | cons b t ih => simpa [min_assoc] using ih (min a b)

theorem foldl_max_comm {α : Type} [LinearOrder α] (l : List α) (s a : α) :
    l.foldl max (max s a) = max s (l.foldl max a) := by
  induction l generalizing a with
  | nil => simp
  | cons b t ih => simpa [max_assoc] using ih (max a b)

theorem foldl_min_eq {α : Type} [Zero α] [LinearOrder α] {l : List α}
    (h : l ≠ []) (s : α) : l.foldl min s = min s (listMin l) := by
  match l with
  | [] => exact absurd rfl h
  | a :: t => simpa [listMin] using foldl_min_comm t s a

theorem listMin_cons_of_ne {α : Type} [Zero α] [LinearOrder α] {t : List α}
    (ht : t ≠ []) (a : α) : listMin (a :: t) = min a (listMin t) := by
  simpa [listMin] using foldl_min_eq ht a

theorem listMin_le_of_mem {α : Type} [Zero α] [LinearOrder α] {l : List α}
    {a : α} (h : a ∈ l) : listMin l ≤ a := by
  match l with
  | [] => cases h
  | b :: t =>
    by_cases ht : t = []
    · subst ht
      have hab : a = b := by simpa using h
      subst hab
      simp [listMin]
    · rw [listMin_cons_of_ne ht b]
      rcases List.mem_cons.mp h with h' | h'
      · subst h'
        exact min_le_left _ _
      · exact le_trans (min_le_right _ _) (listMin_le_of_mem h')

theorem foldl_max_eq {α : Type} [Zero α] [LinearOrder α] {l : List α}
    (h : l ≠ []) (s : α) : l.foldl max s = max s (listMax l) := by
  match l with
  | [] => exact absurd rfl h
  | a :: t => simpa [listMax] using foldl_max_comm t s a

theorem listMax_cons_of_ne {α : Type} [Zero α] [LinearOrder α] {t : List α}
    (ht : t ≠ []) (a : α) : listMax (a :: t) = max a (listMax t) := by
  simpa [listMax] using foldl_max_eq ht a

theorem le_listMax_of_mem {α : Type} [Zero α] [LinearOrder α] {l : List α}
    {a : α} (h : a ∈ l) : a ≤ listMax l := by
  match l with
  | [] => cases h
  | b :: t =>
    by_cases ht : t = []
    · subst ht
      have hab : a = b := by simpa using h
      subst hab
      simp [listMax]
    · rw [listMax_cons_of_ne ht b]
      rcases List.mem_cons.mp h with h' | h'
      · subst h'
        exact le_max_left _ _
      · exact le_trans (le_listMax_of_mem h') (le_max_right _ _)

theorem listMin_append {α : Type} [Zero α] [LinearOrder α] {l₁ l₂ : List α}
    (h₁ : l₁ ≠ []) (h₂ : l₂ ≠ []) :
    listMin (l₁ ++ l₂) = min (listMin l₁) (listMin l₂) := by
  match l₁ with
  | [] => exact absurd rfl h₁
  | [a] =>
    rw [List.singleton_append, listMin_cons_of_ne h₂]
    simp [listMin]
  | a :: b :: t =>
    have ht : (b :: t : List α) ≠ [] := by simp
    have hstep : (a :: b :: t) ++ l₂ = a :: ((b :: t) ++ l₂) := rfl
    rw [hstep, listMin_cons_of_ne (by simp) a, listMin_append ht h₂, ← min_assoc,
      ← listMin_cons_of_ne ht a]

theorem listMin_const {α : Type} [Zero α] [LinearOrder α] {l : List α} {v : α}
    (h : l ≠ []) (hall : ∀ a ∈ l, a = v) : listMin l = v := by
  match l with
  | [] => exact absurd rfl h
  | [a] =>
    have := hall a (by simp)
    subst this
    simp [listMin]
  | a :: b :: t =>
    have ha := hall a (by simp)
    subst ha
    have ht : (b :: t : List α) ≠ [] := by simp
    rw [listMin_cons_of_ne ht a,
      listMin_const ht (fun x hx => hall x (List.mem_cons_of_mem _ hx))]
    simp

theorem listMin_mem {α : Type} [Zero α] [LinearOrder α] {l : List α}
    (h : l ≠ []) : listMin l ∈ l := by
  match l with
  | [] => exact absurd rfl h
  | [a] => simp [listMin]
  | a :: b :: t =>
    have ht : (b :: t : List α) ≠ [] := by simp
    rw [listMin_cons_of_ne ht a]
    rcases le_total a (listMin (b :: t)) with h' | h'
    · simp [min_eq_left h']
    · rw [min_eq_right h']
      exact List.mem_cons_of_mem _ (listMin_mem ht)

theorem listMax_const {α : Type} [Zero α] [LinearOrder α] {l : List α} {v : α}
    (h : l ≠ []) (hall : ∀ a ∈ l, a = v) : listMax l = v := by
  match l with
  | [] => exact absurd rfl h
  | [a] =>
    have := hall a (by simp)
    subst this
    simp [listMax]
  | a :: b :: t =>
    have ha := hall a (by simp)
    subst ha
    have ht : (b :: t : List α) ≠ [] := by simp
    rw [listMax_cons_of_ne ht a,
      listMax_const ht (fun x hx => hall x (List.mem_cons_of_mem _ hx))]
    simp

/-!
### Lemmas about `edges` and the bounding box
-/

theorem mem_of_mem_edges {poly : List (ℚ × ℚ)} {e : (ℚ × ℚ) × (ℚ × ℚ)}
    (h : e ∈ edges poly) : e.1 ∈ poly ∧ e.2 ∈ poly := by
  rcases e with ⟨a, b⟩
  have := List.of_mem_zip h
  exact ⟨this.1, List.mem_rotate.mp this.2⟩

theorem length_edges (poly : List (ℚ × ℚ)) : (edges poly).length = poly.length := by
  simp [edges, List.length_zip, List.length_rotate]

theorem exists_edge_fst {poly : List (ℚ × ℚ)} {v : ℚ × ℚ} (h : v ∈ poly) :
    ∃ e ∈ edges poly, e.1 = v := by
  obtain ⟨i, hv⟩ := List.mem_iff_getElem.mp h
  obtain ⟨hi, hv⟩ := hv
  have hie : i < (edges poly).length := by rw [length_edges]; exact hi
  have hir : i < (poly.rotate 1).length := by rw [List.length_rotate]; exact hi
  refine ⟨(edges poly)[i], List.getElem_mem hie, ?_⟩
  have : (edges poly)[i] = (poly[i], (poly.rotate 1)[i]) := List.getElem_zip
  rw [this, hv]

theorem inBBox_of_mem {poly : List (ℚ × ℚ)} {x y : ℚ} (h : (x, y) ∈ poly) :
    inBBox x y poly = true := by
  have hx : x ∈ poly.map Prod.fst := List.mem_map.mpr ⟨(x, y), h, rfl⟩
  have hy : y ∈ poly.map Prod.snd := List.mem_map.mpr ⟨(x, y), h, rfl⟩
  simp only [inBBox, Bool.and_eq_true, decide_eq_true_eq]
  exact ⟨⟨⟨listMin_le_of_mem hx, le_listMax_of_mem hx⟩, listMin_le_of_mem hy⟩,
    le_listMax_of_mem hy⟩

/-- A coordinate that is a convex combination of two members of a list
lies within the min/max range of that list. -/
theorem convex_between {a b t : ℚ} (h0 : 0 ≤ t) (h1 : t ≤ 1) :
    min a b ≤ a + t * (b - a) ∧ a + t * (b - a) ≤ max a b := by
  rcases le_total a b with hab | hab
  · constructor
    · rw [min_eq_left hab]
      nlinarith
    · rw [max_eq_right hab]
      nlinarith
  · constructor
    · rw [min_eq_right hab]
      nlinarith
    · rw [max_eq_left hab]
      nlinarith

/-- A point exactly on the segment between two ring vertices passes the
bounding-box prefilter. -/
theorem inBBox_of_on_segment {poly : List (ℚ × ℚ)} {x y : ℚ}
    {e : (ℚ × ℚ) × (ℚ × ℚ)} (he : e ∈ edges poly) {t : ℚ}
    (h0 : 0 ≤ t) (h1 : t ≤ 1)
    (hx : x = e.1.1 + t * (e.2.1 - e.1.1)) (hy : y = e.1.2 + t * (e.2.2 - e.1.2)) :
    inBBox x y poly = true := by
  obtain ⟨h1m, h2m⟩ := mem_of_mem_edges he
  have hx1 : e.1.1 ∈ poly.map Prod.fst := List.mem_map.mpr ⟨e.1, h1m, rfl⟩
  have hx2 : e.2.1 ∈ poly.map Prod.fst := List.mem_map.mpr ⟨e.2, h2m, rfl⟩
  have hy1 : e.1.2 ∈ poly.map Prod.snd := List.mem_map.mpr ⟨e.1, h1m, rfl⟩
  have hy2 : e.2.2 ∈ poly.map Prod.snd := List.mem_map.mpr ⟨e.2, h2m, rfl⟩
  obtain ⟨hxl, hxr⟩ := convex_between (a := e.1.1) (b := e.2.1) h0 h1
  obtain ⟨hyl, hyr⟩ := convex_between (a := e.1.2) (b := e.2.2) h0 h1
  simp only [inBBox, Bool.and_eq_true, decide_eq_true_eq]
  refine ⟨⟨⟨?_, ?_⟩, ?_⟩, ?_⟩
  · exact le_trans (le_trans (le_min (listMin_le_of_mem hx1) (listMin_le_of_mem hx2)) hxl)
      (le_of_eq hx.symm)
  · exact le_trans (le_of_eq hx) (le_trans hxr
      (max_le (le_listMax_of_mem hx1) (le_listMax_of_mem hx2)))
  · exact le_trans (le_trans (le_min (listMin_le_of_mem hy1) (listMin_le_of_mem hy2)) hyl)
      (le_of_eq hy.symm)
  · exact le_trans (le_of_eq hy) (le_trans hyr
      (max_le (le_listMax_of_mem hy1) (le_listMax_of_mem hy2)))

/-!
### The coincidence checks flag exact boundary points
-/

theorem onVertexCheck_self (x y : ℚ) : onVertexCheck x y x y = true := by
  simp only [onVertexCheck, sub_self, abs_zero, Bool.and_eq_true, decide_eq_true_eq]
  norm_num [VERTEX_TOL]

theorem onEdgeCheck_of_on_segment {xi yi xj yj x y t : ℚ}
    (hne : (xi, yi) ≠ (xj, yj)) (h0 : 0 ≤ t) (h1 : t ≤ 1)
    (hx : x = xi + t * (xj - xi)) (hy : y = yi + t * (yj - yi)) :
    onEdgeCheck x y xi yi xj yj = true := by
  have hL : 0 < (xj - xi) ^ 2 + (yj - yi) ^ 2 := by
    rcases eq_or_ne xi xj with hxe | hxe
    · rcases eq_or_ne yi yj with hye | hye
      · exact absurd (Prod.ext hxe hye) hne
      · have h : yj - yi ≠ 0 := sub_ne_zero.mpr hye.symm
        positivity
    · have h : xj - xi ≠ 0 := sub_ne_zero.mpr hxe.symm
      positivity
  simp only [onEdgeCheck, if_pos hL, Bool.and_eq_true, decide_eq_true_eq]
  have hLne : (xj - xi) ^ 2 + (yj - yi) ^ 2 ≠ 0 := ne_of_gt hL
  have ht : ((x - xi) * (xj - xi) + (y - yi) * (yj - yi)) /
      ((xj - xi) ^ 2 + (yj - yi) ^ 2) = t := by
    rw [hx, hy]
    field_simp
    ring
  rw [ht]
  refine ⟨⟨?_, h0⟩, h1⟩
  have hpx : xi + t * (xj - xi) = x := hx.symm
  have hpy : yi + t * (yj - yi) = y := hy.symm
  rw [hpx, hpy, sub_self, sub_self]
  norm_num [EDGE_TOL]

theorem edgeFlag_of_fst_eq {x y : ℚ} {e : (ℚ × ℚ) × (ℚ × ℚ)}
    (h : e.1 = (x, y)) : edgeFlag x y e = true := by
  have h1 : e.1.1 = x := by rw [h]
  have h2 : e.1.2 = y := by rw [h]
  simp [edgeFlag, h1, h2, onVertexCheck_self]

/-- The full pipeline flags any point at which some edge's flag holds. -/
theorem pipelinePoint_of_edgeFlag {x y : ℚ} {poly : List (ℚ × ℚ)}
    {e : (ℚ × ℚ) × (ℚ × ℚ)} (he : e ∈ edges poly) (hf : edgeFlag x y e = true) :
    pipelinePoint x y poly = true := by
  rw [pipelinePoint_eq_any]
  exact List.any_eq_true.mpr ⟨e, he, hf⟩

theorem contains1_of_boundary {poly : List (ℚ × ℚ)} {x y : ℚ}
    (hb : (x, y) ∈ poly ∨
      ∃ e ∈ edges poly, e.1 ≠ e.2 ∧ ∃ t : ℚ, 0 ≤ t ∧ t ≤ 1 ∧
        x = e.1.1 + t * (e.2.1 - e.1.1) ∧ y = e.1.2 + t * (e.2.2 - e.1.2)) :
    contains1 x y poly = true := by
  rcases hb with hv | ⟨e, he, hene, t, h0, h1, hx, hy⟩
  · obtain ⟨e, he, hef⟩ := exists_edge_fst hv
    rw [contains1, if_pos (inBBox_of_mem hv)]
    exact pipelinePoint_of_edgeFlag he (edgeFlag_of_fst_eq hef)
  · rw [contains1, if_pos (inBBox_of_on_segment he h0 h1 hx hy)]
    refine pipelinePoint_of_edgeFlag he ?_
    have hene' : (e.1.1, e.1.2) ≠ (e.2.1, e.2.2) := by
      simpa using hene
    have hoe := onEdgeCheck_of_on_segment hene' h0 h1 hx hy
    simp [edgeFlag, hoe]

/-- C5: a query point exactly at a ring vertex, or exactly on a ring
edge segment (projection parameter in `[0,1]`), is flagged by the
vertex/edge coincidence stages before ray casting runs, so containment
returns `true`; a query exactly at a vertex moreover makes the forecast
cone evaluator report distance `0` (and contained). -/
theorem c5_boundary_contained (poly : List (ℚ × ℚ)) (h3 : 3 ≤ poly.length)
    (x y : ℚ) (cone : ConeRecord) (rest : List (List (ℚ × ℚ)))
    (hgeom : cone.geometry = some (poly :: rest))
    (hb : (x, y) ∈ poly ∨
      ∃ e ∈ edges poly, e.1 ≠ e.2 ∧ ∃ t : ℚ, 0 ≤ t ∧ t ≤ 1 ∧
        x = e.1.1 + t * (e.2.1 - e.1.1) ∧ y = e.1.2 + t * (e.2.2 - e.1.2)) :
    is_point_in_polygon x y poly = some true ∧
    ((x, y) ∈ poly → calculate_distance_to_cone y x cone = ((0 : EReal), true)) := by
  have hne : poly ≠ [] := by
    intro h
    rw [h] at h3
    simp at h3
  have hc := contains1_of_boundary hb
  refine ⟨by rw [is_point_in_polygon, if_neg hne, hc], fun _ => ?_⟩
  rw [calculate_distance_to_cone, hgeom]
  simp [hne, hc]

/-- C5 witness: the vertex `(-100, 25)` of the spec's test ring. -/
theorem c5_witness :
    is_point_in_polygon (-100) 25 testRing = some true ∧
    calculate_distance_to_cone 25 (-100) ⟨some [testRing], none, none⟩
      = ((0 : EReal), true) :=
  ⟨(c5_boundary_contained testRing (by simp [testRing]) (-100) 25
      ⟨some [testRing], none, none⟩ [] rfl (Or.inl (by simp [testRing]))).1,
    (c5_boundary_contained testRing (by simp [testRing]) (-100) 25
      ⟨some [testRing], none, none⟩ [] rfl (Or.inl (by simp [testRing]))).2
      (by simp [testRing])⟩

/-- C4 counterexample: for the square `(0,0),(2,0),(2,2),(0,2)` and the
query `(-1e-10, 0)` — outside the bounding box but within the `1e-9`
vertex tolerance of the corner `(0,0)` — the prefiltered test returns
`false` while the identical vertex/edge/ray pipeline without the
prefilter returns `true`: the prefilter is not semantically invisible. -/
theorem c4_counterexample :
    is_point_in_polygon (-(1/10000000000)) 0 [((0 : ℚ), 0), (2, 0), (2, 2), (0, 2)]
        = some false ∧
    pipelinePoint (-(1/10000000000)) 0 [((0 : ℚ), 0), (2, 0), (2, 2), (0, 2)]
        = true := by
  constructor
  · norm_num [is_point_in_polygon, contains1, inBBox, pipelinePoint, edges, listMin,
      listMax, List.rotate, edgeStep, onVertexCheck, onEdgeCheck, rayCondition, edgeFlag,
      diamondRing, testRing, VERTEX_TOL, EDGE_TOL, abs_lt, le_abs, List.countP,
      List.countP.go]
    all_goals (intro h; exact absurd h (by simp))
  · norm_num [is_point_in_polygon, contains1, inBBox, pipelinePoint, edges, listMin,
      listMax, List.rotate, edgeStep, onVertexCheck, onEdgeCheck, rayCondition, edgeFlag,
      diamondRing, testRing, VERTEX_TOL, EDGE_TOL, abs_lt, le_abs, List.countP,
      List.countP.go]
    all_goals (intro h; exact absurd h (by simp))

/-- C4 (amended): the bounding-box prefilter is semantically invisible
exactly for query points inside the bounding box, or points the
unfiltered pipeline rejects anyway; a point outside the box that the
pipeline would flag (for instance within the boundary tolerances just
outside the box) is forced to `false` by the prefilter. -/
theorem c4_prefilter_agreement (poly : List (ℚ × ℚ)) (hne : poly ≠ []) (x y : ℚ) :
    is_point_in_polygon x y poly = some (pipelinePoint x y poly) ↔
      (inBBox x y poly = true ∨ pipelinePoint x y poly = false) := by
  rw [is_point_in_polygon, if_neg hne, contains1]
  by_cases hb : inBBox x y poly
  · simp [hb]
  · rw [if_neg hb]
    constructor
    · intro h
      exact Or.inr (Option.some_inj.mp h).symm
    · intro h
      rcases h with h | h
      · exact absurd h hb
      · rw [h]

/-- C4 witness: instantiated at the one-point ring `[(0,0)]` and the
query `(0,0)`. -/
theorem c4_witness :
    is_point_in_polygon 0 0 [((0 : ℚ), 0)] = some (pipelinePoint 0 0 [((0 : ℚ), 0)]) ↔
      (inBBox 0 0 [((0 : ℚ), 0)] = true ∨ pipelinePoint 0 0 [((0 : ℚ), 0)] = false) :=
  c4_prefilter_agreement [((0 : ℚ), 0)] (by simp) 0 0

/-- C6 counterexample: degenerate rings do not return `false` for every
query point.  A one-point ring returns `true` for the query at its
vertex; the empty ring raises (`none`, from `np.min` of an empty
array); and a two-point ring returns `true` for an off-boundary point
inside its bounding box (the ray stage fires on both copies of the
segment, and the OR-semantics of the masked toggle keep it `true`). -/
theorem c6_counterexample :
    is_point_in_polygon 0 0 [((0 : ℚ), 0)] = some true ∧
    is_point_in_polygon 0 0 ([] : List (ℚ × ℚ)) = none ∧
    is_point_in_polygon (1/2) (3/2) [((0 : ℚ), 0), (2, 2)] = some true := by
  refine ⟨?_, ?_, ?_⟩
  · norm_num [is_point_in_polygon, contains1, inBBox, pipelinePoint, edges, listMin,
      listMax, List.rotate, edgeStep, onVertexCheck, onEdgeCheck, rayCondition, edgeFlag,
      diamondRing, testRing, VERTEX_TOL, EDGE_TOL, abs_lt, le_abs, List.countP,
      List.countP.go]
    all_goals (intro h; exact absurd h (by simp))
  · norm_num [is_point_in_polygon, contains1, inBBox, pipelinePoint, edges, listMin,
      listMax, List.rotate, edgeStep, onVertexCheck, onEdgeCheck, rayCondition, edgeFlag,
      diamondRing, testRing, VERTEX_TOL, EDGE_TOL, abs_lt, le_abs, List.countP,
      List.countP.go]
    all_goals (intro h; exact absurd h (by simp))
  · norm_num [is_point_in_polygon, contains1, inBBox, pipelinePoint, edges, listMin,
      listMax, List.rotate, edgeStep, onVertexCheck, onEdgeCheck, rayCondition, edgeFlag,
      diamondRing, testRing, VERTEX_TOL, EDGE_TOL, abs_lt, le_abs, List.countP,
      List.countP.go]
    all_goals (intro h; exact absurd h (by simp))

/-- C6 (amended): a nonempty ring whose vertices all coincide (any
count, including a single point) never raises; its bounding box is the
single vertex, so the containment test returns `true` exactly for the
query equal to that vertex (flagged by the vertex-coincidence check)
and `false` for every other query; the ray stage never fires. -/
theorem c6_degenerate_ring (poly : List (ℚ × ℚ)) (v : ℚ × ℚ) (hne : poly ≠ [])
    (hall : ∀ p ∈ poly, p = v) (x y : ℚ) :
    is_point_in_polygon x y poly = some (decide (x = v.1) && decide (y = v.2)) := by
  have hmapf : poly.map Prod.fst ≠ [] := by simpa using hne
  have hmaps : poly.map Prod.snd ≠ [] := by simpa using hne
  have hforallf : ∀ a ∈ poly.map Prod.fst, a = v.1 := by
    rintro a ha
    obtain ⟨p, hp, rfl⟩ := List.mem_map.mp ha
    rw [hall p hp]
  have hforalls : ∀ a ∈ poly.map Prod.snd, a = v.2 := by
    rintro a ha
    obtain ⟨p, hp, rfl⟩ := List.mem_map.mp ha
    rw [hall p hp]
  have hminf := listMin_const hmapf hforallf
  have hmaxf := listMax_const hmapf hforallf
  have hmins := listMin_const hmaps hforalls
  have hmaxs := listMax_const hmaps hforalls
  rw [is_point_in_polygon, if_neg hne, contains1]
  by_cases hx : x = v.1
  · by_cases hy : y = v.2
    · have hbbox : inBBox x y poly = true := by
        simp [inBBox, hminf, hmaxf, hmins, hmaxs, hx, hy]
      rw [if_pos hbbox]
      have hv : v ∈ poly := by
        rcases poly with _ | ⟨p, t⟩
        · exact absurd rfl hne
        · rw [← hall p (by simp)]
          simp
      obtain ⟨e, he, hef⟩ := exists_edge_fst hv
      have hpl : pipelinePoint x y poly = true :=
        pipelinePoint_of_edgeFlag he (edgeFlag_of_fst_eq (by
          rw [hef, hx, hy]))
      rw [hpl, hx, hy]
      simp
  -- remaining cases: the bounding box is the single vertex, so misses
    · have hbbox : inBBox x y poly = false := by
        simp only [inBBox, hmins, hmaxs]
        have : ¬ (v.2 ≤ y ∧ y ≤ v.2) := fun hc => hy (le_antisymm hc.2 hc.1)
        rcases not_and_or.mp this with h | h <;> simp [h]
      rw [hbbox]
      simp [hy]
  · have hbbox : inBBox x y poly = false := by
      simp only [inBBox, hminf, hmaxf]
      have : ¬ (v.1 ≤ x ∧ x ≤ v.1) := fun hc => hx (le_antisymm hc.2 hc.1)
      rcases not_and_or.mp this with h | h <;> simp [h]
    rw [hbbox]
    simp [hx]

/-- C6 witness: a one-point ring `[(5,7)]` queried at `(5,7)`. -/
theorem c6_witness :
    is_point_in_polygon 5 7 [((5 : ℚ), 7)] =
      some (decide ((5 : ℚ) = ((5 : ℚ), (7 : ℚ)).1) && decide ((7 : ℚ) = ((5 : ℚ), (7 : ℚ)).2)) :=
  c6_degenerate_ring [((5 : ℚ), 7)] ((5 : ℚ), 7) (by simp) (by simp) 5 7

/-- C1: the ray-casting stage does not implement the even-odd rule.
For the diamond ring and the query `(0.1, 0.5)` — inside the bounding
box, flagged by no vertex or edge coincidence check, and crossed by
exactly two (an even number of) ray/edge intersections — the even-odd
rule of the claim yields `false` (outside, as the point geometrically
is), but the code returns `true`: the mask
`~inside_or_on_edge_bbox & (yi != yj)` freezes the flag once the first
crossing sets it, so each later crossing cannot toggle it back, and the
result is the OR (not the parity) of the crossings. -/
theorem c1_code_bug :
    is_point_in_polygon (1/10) (1/2) diamondRing = some true ∧
    (edges diamondRing).all
      (fun e => !(onVertexCheck (1/10) (1/2) e.1.1 e.1.2 ||
        onEdgeCheck (1/10) (1/2) e.1.1 e.1.2 e.2.1 e.2.2)) = true ∧
    (edges diamondRing).countP
      (fun e => rayCondition (1/10) (1/2) e.1.1 e.1.2 e.2.1 e.2.2) = 2 := by
  refine ⟨?_, ?_, ?_⟩
  · norm_num [is_point_in_polygon, contains1, inBBox, pipelinePoint, edges, listMin,
      listMax, List.rotate, edgeStep, onVertexCheck, onEdgeCheck, rayCondition, edgeFlag,
      diamondRing, testRing, VERTEX_TOL, EDGE_TOL, abs_lt, le_abs, List.countP,
      List.countP.go]
    all_goals (intro h; exact absurd h (by simp))
  · norm_num [is_point_in_polygon, contains1, inBBox, pipelinePoint, edges, listMin,
      listMax, List.rotate, edgeStep, onVertexCheck, onEdgeCheck, rayCondition, edgeFlag,
      diamondRing, testRing, VERTEX_TOL, EDGE_TOL, abs_lt, le_abs, List.countP,
      List.countP.go]
    all_goals (intro h; exact absurd h (by simp))
  · norm_num [is_point_in_polygon, contains1, inBBox, pipelinePoint, edges, listMin,
      listMax, List.rotate, edgeStep, onVertexCheck, onEdgeCheck, rayCondition, edgeFlag,
      diamondRing, testRing, VERTEX_TOL, EDGE_TOL, abs_lt, le_abs, List.countP,
      List.countP.go]
    all_goals (intro h; exact absurd h (by simp))

/-- C3: for a forecast cone with ring geometry, the evaluator returns
distance `0` and contained `true` when the containment test flags the
query inside-or-on-boundary of the outer ring, and otherwise contained
`false` with the minimum vertex haversine distance to the outer ring
(the vertex-only approximation). -/
theorem c3_cone_policy (user_lat user_lon : ℚ) (cone : ConeRecord)
    (r0 : List (ℚ × ℚ)) (rest : List (List (ℚ × ℚ)))
    (hg : cone.geometry = some (r0 :: rest)) (h3 : 3 ≤ r0.length) :
    calculate_distance_to_cone user_lat user_lon cone =
      if contains1 user_lon user_lat r0 then ((0 : EReal), true)
      else (((ringMinDistance user_lat user_lon r0 : ℝ) : EReal), false) := by
  have hne : r0 ≠ [] := by
    rintro rfl
    simp at h3
  unfold calculate_distance_to_cone
  rw [hg]
  simp [hne]

/-- C3 witness: the spec's rectangle ring queried from `(lon=-85, lat=30)`. -/
theorem c3_witness :
    calculate_distance_to_cone 30 (-85) ⟨some [testRing], none, none⟩ =
      if contains1 (-85) 30 testRing then ((0 : EReal), true)
      else (((ringMinDistance 30 (-85) testRing : ℝ) : EReal), false) :=
  c3_cone_policy 30 (-85) ⟨some [testRing], none, none⟩ testRing [] rfl
    (by simp [testRing])

/-- C10: a cone record with no rings whose fallback coordinate has
latitude exactly `0` or longitude exactly `0` is handled as if it had
no fallback point at all — `if cone_lat and cone_lon:` uses numeric
truthiness — so the evaluator returns `(+∞, false)` instead of the
haversine distance to that coordinate. -/
theorem c10_zero_fallback_dropped (user_lat user_lon : ℚ) (cone : ConeRecord)
    (la lo : ℚ) (hg : cone.geometry = none) (hlat : cone.lat = some la)
    (hlon : cone.lon = some lo) (hzero : la = 0 ∨ lo = 0) :
    calculate_distance_to_cone user_lat user_lon cone = (⊤, false) := by
  unfold calculate_distance_to_cone
  rw [hg]
  have htr : (truthy cone.lat && truthy cone.lon) = false := by
    rcases hzero with h | h
    · subst h
      rw [hlat]
      simp [truthy]
    · subst h
      rw [hlon]
      simp [truthy]
  rw [htr]
  simp

/-- C10 witness: fallback `(LAT, LON) = (0, 5)` with no geometry. -/
theorem c10_witness :
    calculate_distance_to_cone 1 1 ⟨none, some 0, some 5⟩ = (⊤, false) :=
  c10_zero_fallback_dropped 1 1 ⟨none, some 0, some 5⟩ 0 5 rfl rfl rfl (Or.inl rfl)

/-- C8 counterexample: a record with no ring geometry that *does* carry
a fallback coordinate — `(LAT, LON) = (0, 5)` — nevertheless returns
distance `+∞`, not the (finite) haversine distance to that coordinate,
because the numeric-truthiness presence test drops it. -/
theorem c8_counterexample :
    calculate_distance_to_cone 1 1 ⟨none, some 0, some 5⟩ = (⊤, false) ∧
    ((haversine 1 1 5 0 : ℝ) : EReal) ≠ ⊤ := by
  constructor
  · unfold calculate_distance_to_cone truthy
    simp
  · exact EReal.coe_ne_top _

/-- C8 (amended): the evaluators never raise (they are total), and:
a cone record with no ring geometry and a fallback coordinate whose
latitude and longitude are both nonzero gets the haversine point
distance with contained `false`; with no ring geometry and no truthy
fallback it gets `(+∞, false)`; a fire record with no rings gets
`(+∞, false)`. -/
theorem c8_no_geometry_policy (user_lat user_lon : ℚ) (cone : ConeRecord)
    (la lo : ℚ) :
    (cone.geometry = none → cone.lat = some la → cone.lon = some lo →
      la ≠ 0 → lo ≠ 0 →
      calculate_distance_to_cone user_lat user_lon cone =
        (((haversine user_lon user_lat lo la : ℝ) : EReal), false)) ∧
    (cone.geometry = none → (truthy cone.lat && truthy cone.lon) = false →
      calculate_distance_to_cone user_lat user_lon cone = (⊤, false)) ∧
    calculate_distance_to_fire user_lat user_lon [] = (⊤, false) := by
  refine ⟨?_, ?_, ?_⟩
  · intro hg hlat hlon hla hlo
    unfold calculate_distance_to_cone
    rw [hg]
    have htr : (truthy cone.lat && truthy cone.lon) = true := by
      rw [hlat, hlon]
      simp [truthy, hla, hlo]
    rw [htr, hlat, hlon]
    simp
  · intro hg htr
    unfold calculate_distance_to_cone
    rw [hg, htr]
    simp
  · unfold calculate_distance_to_fire
    simp

/-- C8 witness: a cone record with truthy fallback `(20, 30)`, one with
the untruthy fallback `LAT = 0, LON` missing, and a fire record with no
rings. -/
theorem c8_witness :
    calculate_distance_to_cone 2 3 ⟨none, some 20, some 30⟩ =
      (((haversine 3 2 30 20 : ℝ) : EReal), false) ∧
    calculate_distance_to_cone 2 3 ⟨none, some 0, none⟩ = (⊤, false) ∧
    calculate_distance_to_fire 2 3 [] = (⊤, false) :=
  ⟨(c8_no_geometry_policy 2 3 ⟨none, some 20, some 30⟩ 20 30).1 rfl rfl rfl
      (by norm_num) (by norm_num),
    (c8_no_geometry_policy 2 3 ⟨none, some 0, none⟩ 20 30).2.1 rfl (by simp [truthy]),
    (c8_no_geometry_policy 2 3 ⟨none, some 0, none⟩ 20 30).2.2⟩

/-!
### The wildfire multi-ring policy (C2)
-/

theorem coe_min_ereal (a b : ℝ) :
    ((min a b : ℝ) : EReal) = min (a : EReal) (b : EReal) := by
  rcases le_total a b with h | h
  · rw [min_eq_left h, min_eq_left (EReal.coe_le_coe_iff.mpr h)]
  · rw [min_eq_right h, min_eq_right (EReal.coe_le_coe_iff.mpr h)]

theorem foldl_min_coe (ulat ulon : ℚ) (rs : List (List (ℚ × ℚ))) (x : ℝ) :
    rs.foldl (fun m r => min m ((ringMinDistance ulat ulon r : ℝ) : EReal))
        ((x : ℝ) : EReal) =
      ((rs.foldl (fun m r => min m (ringMinDistance ulat ulon r)) x : ℝ) : EReal) := by
  induction rs generalizing x with
  | nil => rfl
  | cons r t ih =>
    simp only [List.foldl_cons, ← coe_min_ereal]
    exact ih (min x (ringMinDistance ulat ulon r))

theorem ringMinDistance_append (ulat ulon : ℚ) {l₁ l₂ : List (ℚ × ℚ)}
    (h₁ : l₁ ≠ []) (h₂ : l₂ ≠ []) :
    ringMinDistance ulat ulon (l₁ ++ l₂) =
      min (ringMinDistance ulat ulon l₁) (ringMinDistance ulat ulon l₂) := by
  unfold ringMinDistance
  rw [List.map_append]
  exact listMin_append (by simpa using h₁) (by simpa using h₂)

theorem foldl_min_ringMin (ulat ulon : ℚ) (rs : List (List (ℚ × ℚ)))
    (hne : rs ≠ []) (hall : ∀ r ∈ rs, r ≠ []) (s : ℝ) :
    rs.foldl (fun m r => min m (ringMinDistance ulat ulon r)) s =
      min s (ringMinDistance ulat ulon rs.flatten) := by
  match rs with
  | [] => exact absurd rfl hne
  | [r] => simp
  | r :: r' :: t =>
    have hr : r ≠ [] := hall r (by simp)
    have hr' : (r' :: t : List (List (ℚ × ℚ))) ≠ [] := by simp
    have hall' : ∀ q ∈ r' :: t, q ≠ [] :=
      fun q hq => hall q (List.mem_cons_of_mem _ hq)
    have hjoin : (r' :: t).flatten ≠ [] := by
      intro hj
      exact absurd (List.flatten_eq_nil_iff.mp hj r' (by simp)) (hall r' (by simp))
    rw [List.foldl_cons, foldl_min_ringMin ulat ulon (r' :: t) hr' hall'
      (min s (ringMinDistance ulat ulon r))]
    have hjc : (r :: r' :: t).flatten = r ++ (r' :: t).flatten := rfl
    rw [hjc, ringMinDistance_append ulat ulon hr hjoin, min_assoc]

/-- The ring loop of `_calculate_distance_to_fire` over the hole rings
(enumerated from any index `k ≥ 1`): it never touches `inside_outer`,
ORs the containment of each usable ring into `inside_hole`, and folds
each ring's minimum vertex distance into `min_distance`. -/
theorem fireFold_tail (ulat ulon : ℚ) (rs : List (List (ℚ × ℚ)))
    (h3 : ∀ r ∈ rs, 3 ≤ r.length) :
    ∀ (k : ℕ), 1 ≤ k → ∀ (io ih : Bool) (md : EReal),
    (List.enumFrom k rs).foldl (fireStep ulat ulon) (io, ih, md) =
      (io, ih || rs.any (fun r => contains1 ulon ulat r),
        rs.foldl (fun m r => min m ((ringMinDistance ulat ulon r : ℝ) : EReal)) md) := by
  induction rs with
  | nil =>
    intro k hk io ih md
    simp
  | cons r t iht =>
    intro k hk io ih md
    have hr3 := h3 r (by simp)
    have hlen : ¬ (r.length < 3) := not_lt.mpr hr3
    have hk0 : k ≠ 0 := by omega
    have hstep : fireStep ulat ulon (io, ih, md) (k, r) =
        (io, ih || contains1 ulon ulat r,
          min md ((ringMinDistance ulat ulon r : ℝ) : EReal)) := by
      unfold fireStep
      cases hc : contains1 ulon ulat r <;> cases ih <;> simp [hlen, hk0, hc]
    have henum : List.enumFrom k (r :: t) = (k, r) :: List.enumFrom (k + 1) t := rfl
    rw [henum, List.foldl_cons, hstep,
      iht (fun q hq => h3 q (List.mem_cons_of_mem _ hq)) (k + 1) (by omega)]
    simp [Bool.or_assoc]

/-- C2: for a multi-ring wildfire perimeter whose rings all have at
least 3 vertices, the evaluator reports contained exactly when the
query is inside the outer ring `rings[0]` and inside no hole ring
`rings[1:]`; the distance is the minimum vertex haversine distance over
the vertices of all rings combined, forced to `0` when contained.  In
particular a query inside a hole has contained = false even when it is
inside the outer boundary. -/
theorem c2_fire_policy (ulat ulon : ℚ) (rings : List (List (ℚ × ℚ)))
    (hne : rings ≠ []) (h3 : ∀ r ∈ rings, 3 ≤ r.length) :
    calculate_distance_to_fire ulat ulon rings =
      (if contains1 ulon ulat rings.headI &&
          !(rings.tail.any fun r => contains1 ulon ulat r)
        then (0 : EReal)
        else ((ringMinDistance ulat ulon rings.flatten : ℝ) : EReal),
       contains1 ulon ulat rings.headI &&
          !(rings.tail.any fun r => contains1 ulon ulat r)) := by
  match rings with
  | [] => exact absurd rfl hne
  | r0 :: rest =>
    have hr0 := h3 r0 (by simp)
    have hlen : ¬ (r0.length < 3) := not_lt.mpr hr0
    have hr0ne : r0 ≠ [] := by
      intro h
      rw [h] at hr0
      simp at hr0
    have hmd : (rest.foldl (fun m r => min m ((ringMinDistance ulat ulon r : ℝ) : EReal))
        ((ringMinDistance ulat ulon r0 : ℝ) : EReal)) =
        ((ringMinDistance ulat ulon (r0 :: rest).flatten : ℝ) : EReal) := by
      rw [foldl_min_coe]
      by_cases hrest : rest = []
      · subst hrest
        simp
      · rw [foldl_min_ringMin ulat ulon rest hrest
          (fun q hq => by
            have hq3 := h3 q (List.mem_cons_of_mem _ hq)
            intro hq0
            rw [hq0] at hq3
            simp at hq3) (ringMinDistance ulat ulon r0)]
        have hjoin : rest.flatten ≠ [] := by
          intro hj
          rcases rest with _ | ⟨q, t⟩
          · exact hrest rfl
          · have hq := List.flatten_eq_nil_iff.mp hj q (by simp)
            have hq3 := h3 q (by simp)
            rw [hq] at hq3
            simp at hq3
        rw [← ringMinDistance_append ulat ulon hr0ne hjoin]
        rfl
    have hstep0 : fireStep ulat ulon (false, false, (⊤ : EReal)) (0, r0) =
        (contains1 ulon ulat r0, false,
          ((ringMinDistance ulat ulon r0 : ℝ) : EReal)) := by
      unfold fireStep
      cases hc : contains1 ulon ulat r0 <;>
        simp [hlen, hc, min_eq_right (le_top (a := _))]
    have henum : (r0 :: rest).enum = (0, r0) :: List.enumFrom 1 rest := rfl
    unfold calculate_distance_to_fire
    rw [if_neg (List.cons_ne_nil r0 rest), henum, List.foldl_cons, hstep0,
      fireFold_tail ulat ulon rest (fun q hq => h3 q (List.mem_cons_of_mem _ hq)) 1
        (le_refl 1) (contains1 ulon ulat r0) false
        ((ringMinDistance ulat ulon r0 : ℝ) : EReal)]
    simp only [Bool.false_or, List.headI, List.tail_cons, hmd]
    rcases Bool.eq_false_or_eq_true
        (contains1 ulon ulat r0 && !(rest.any fun r => contains1 ulon ulat r)) with
      hb | hb <;> simp [hb]

/-- C2 witness: the spec's example — outer ring `testRing`, hole ring
`holeRing`, query `(lon=-95, lat=30)` inside the hole. -/
theorem c2_witness :
    calculate_distance_to_fire 30 (-95) [testRing, holeRing] =
      (if contains1 (-95) 30 ([testRing, holeRing] : List (List (ℚ × ℚ))).headI &&
          !(([testRing, holeRing] : List (List (ℚ × ℚ))).tail.any
            fun r => contains1 (-95) 30 r)
        then (0 : EReal)
        else ((ringMinDistance 30 (-95)
          ([testRing, holeRing] : List (List (ℚ × ℚ))).flatten : ℝ) : EReal),
       contains1 (-95) 30 ([testRing, holeRing] : List (List (ℚ × ℚ))).headI &&
          !(([testRing, holeRing] : List (List (ℚ × ℚ))).tail.any
            fun r => contains1 (-95) 30 r)) :=
  c2_fire_policy 30 (-95) [testRing, holeRing] (by simp)
    (by
      intro r hr
      rcases List.mem_cons.mp hr with h | h
      · rw [h]
        simp [testRing]
      · have hr2 : r = holeRing := by simpa using h
        rw [hr2]
        simp [holeRing])

/-- C9: the batched haversine computes the same formula as the scalar
haversine at every index: for `i < |targets|`,
`haversine_vectorized(origin, targets)[i] = haversine(origin, targets[i])`. -/
theorem c9_batch_matches_scalar (lon1 lat1 : ℚ) (lon2s lat2s : List ℚ) (i : ℕ)
    (h1 : i < lon2s.length) (h2 : i < lat2s.length) :
    (haversine_vectorized lon1 lat1 lon2s lat2s).getD i 0 =
      haversine lon1 lat1 (lon2s.getD i 0) (lat2s.getD i 0) := by
  have hz : i < (lon2s.zip lat2s).length := by
    rw [List.length_zip]
    omega
  have hm : i < ((lon2s.zip lat2s).map (fun p =>
      let rlon1 := radians lon1
      let rlat1 := radians lat1
      let rlon2 := radians p.1
      let rlat2 := radians p.2
      let dlon := rlon2 - rlon1
      let dlat := rlat2 - rlat1
      let a := Real.sin (dlat / 2) ^ 2 +
        Real.cos rlat1 * Real.cos rlat2 * Real.sin (dlon / 2) ^ 2
      let c := 2 * Real.arcsin (Real.sqrt a)
      EARTH_RADIUS_MILES * c)).length := by
    simpa using hz
  rw [haversine_vectorized, List.getD_eq_getElem _ _ hm, List.getElem_map,
    List.getElem_zip, List.getD_eq_getElem _ _ h1, List.getD_eq_getElem _ _ h2]
  rfl

/-- C9 witness: three targets, index 1. -/
theorem c9_witness :
    (haversine_vectorized (-95) 29 [-94, -93, -92] [28, 27, 26]).getD 1 0 =
      haversine (-95) 29 (([-94, -93, -92] : List ℚ).getD 1 0)
        (([28, 27, 26] : List ℚ).getD 1 0) :=
  c9_batch_matches_scalar (-95) 29 [-94, -93, -92] [28, 27, 26] 1
    (by simp) (by simp)

/-- C7: the ranker keeps exactly the entries with `contained` or
distance within the radius, stores distance `0` for contained entries,
and emits them in ascending stored-distance order with a stable sort:
the output is a permutation of the kept entries, it is sorted by
distance, entries of any fixed distance keep their input order, and
every contained entry in the output has distance `0`. -/
theorem c7_ranker_ordered {α : Type} (radius_miles : EReal)
    (entries : List (α × EReal × Bool)) :
    (rankResults radius_miles entries).Perm
        ((entries.filter fun e => !(decide (radius_miles < e.2.1) && !e.2.2)).map
          fun e => (e.1, if e.2.2 then (0 : EReal) else e.2.1, e.2.2)) ∧
    (rankResults radius_miles entries).Pairwise (fun a b => a.2.1 ≤ b.2.1) ∧
    (∀ d : EReal,
      (rankResults radius_miles entries).filter (fun e => decide (e.2.1 = d)) =
        ((entries.filter fun e => !(decide (radius_miles < e.2.1) && !e.2.2)).map
          fun e => (e.1, if e.2.2 then (0 : EReal) else e.2.1, e.2.2)).filter
          (fun e => decide (e.2.1 = d))) ∧
    (∀ e ∈ rankResults radius_miles entries, e.2.2 = true → e.2.1 = 0) := by
  classical
  set stored : List (α × EReal × Bool) :=
    (entries.filter fun e => !(decide (radius_miles < e.2.1) && !e.2.2)).map
      fun e => (e.1, if e.2.2 then (0 : EReal) else e.2.1, e.2.2) with hstored
  have hrank : rankResults radius_miles entries =
      stored.mergeSort fun a b => decide (a.2.1 ≤ b.2.1) := rfl
  have htrans : ∀ (a b c : α × EReal × Bool),
      (decide (a.2.1 ≤ b.2.1)) → (decide (b.2.1 ≤ c.2.1)) → (decide (a.2.1 ≤ c.2.1)) := by
    intro a b c hab hbc
    exact decide_eq_true_eq.mpr
      (le_trans (of_decide_eq_true hab) (of_decide_eq_true hbc))
  have htotal : ∀ (a b : α × EReal × Bool),
      (decide (a.2.1 ≤ b.2.1)) || (decide (b.2.1 ≤ a.2.1)) := by
    intro a b
    rcases le_total a.2.1 b.2.1 with h | h <;> simp [h]
  refine ⟨?_, ?_, ?_, ?_⟩
  · rw [hrank]
    exact List.mergeSort_perm stored _
  · rw [hrank]
    exact (List.sorted_mergeSort htrans htotal stored).imp
      (fun h => of_decide_eq_true h)
  · intro d
    rw [hrank]
    set p : α × EReal × Bool → Bool := fun e => decide (e.2.1 = d) with hp
    set s : List (α × EReal × Bool) := stored.filter p with hs
    have hall : ∀ e ∈ s, p e = true := fun e he => List.of_mem_filter he
    have hpair : s.Pairwise (fun a b => decide (a.2.1 ≤ b.2.1)) := by
      refine List.pairwise_of_forall_mem_list ?_
      intro a ha b hb
      have hda : a.2.1 = d := of_decide_eq_true (hall a ha)
      have hdb : b.2.1 = d := of_decide_eq_true (hall b hb)
      simp [hda, hdb]
    have hsub : List.Sublist s (stored.mergeSort fun a b => decide (a.2.1 ≤ b.2.1)) :=
      List.sublist_mergeSort htrans htotal hpair (List.filter_sublist stored)
    have hsub2 : List.Sublist s
        ((stored.mergeSort fun a b => decide (a.2.1 ≤ b.2.1)).filter p) := by
      have hfs : s.filter p = s := List.filter_eq_self.mpr hall
      have := hsub.filter p
      rwa [hfs] at this
    have hlen : ((stored.mergeSort fun a b => decide (a.2.1 ≤ b.2.1)).filter p).length
        = s.length := by
      rw [← List.countP_eq_length_filter, ← List.countP_eq_length_filter,
        (List.mergeSort_perm stored _).countP_eq]
    exact (hsub2.eq_of_length hlen.symm).symm
  · intro e he htrue
    rw [hrank] at he
    have hmem : e ∈ stored := List.mem_mergeSort.mp he
    obtain ⟨e0, _, rfl⟩ := List.mem_map.mp hmem
    simp only at htrue
    simp [htrue]

end DisasterMonitor
